import Mathlib

/-!
Verification of the anime-news pipeline (`animebot.py`, the structured/core
variant the specification follows).  Text is modelled as `List Char` (one
element per Unicode code point, matching Python's `len`/slicing semantics);
external effects (HTTP transport, the Telegram API, the ledger file) are
modelled as explicit oracles, and the run produces an event trace that the
theorems inspect.
-/

set_option autoImplicit false
set_option maxRecDepth 16384

namespace AnimeBot

/-- Text, one entry per Unicode code point (Python string semantics). -/
abbrev Str := List Char

/-- A Python value as far as `escape_html` can observe it: `None`,
a string, or a non-string object. -/
inductive PyVal where
  | none
  | str (s : Str)
  | other
deriving DecidableEq

/-- Python `s.replace(c, r)` for a single-character needle `c`:
every occurrence of `c` is replaced by `r`. -/
def replaceAll : Str → Char → Str → Str
  | [], _, _ => []
  | a :: s, c, r => (if a = c then r else [a]) ++ replaceAll s c r

/-- Model of `escape_html` (animebot.py lines 38-42): `None`, empty or non-string
input yields `""`; otherwise `&`, `<`, `>` are replaced in that order. -/
def escape_html : PyVal → Str
  | PyVal.none => []
  | PyVal.other => []
  | PyVal.str s =>
    if s = [] then []
    else replaceAll (replaceAll (replaceAll s '&' ("&amp;".toList)) '<' ("&lt;".toList))
      '>' ("&gt;".toList)

/-- Character-wise escaping map: the intended meaning of `escape_html`
on each character. -/
def escChar (c : Char) : Str :=
  if c = '&' then "&amp;".toList
  else if c = '<' then "&lt;".toList
  else if c = '>' then "&gt;".toList
  else [c]

/-- Character-wise escaping of a whole string. -/
def escMap : Str → Str
  | [] => []
  | c :: s => escChar c ++ escMap s

/-- The 17-character decorative separator above the summary (line 180). -/
def sepDown : Str := "﹏﹏﹏﹏﹏﹏﹏﹏﹏﹏﹏﹏﹏﹏﹏﹏﹏".toList

/-- The 17-character decorative separator below the summary (line 182). -/
def sepUp : Str := "﹋﹋﹋﹋﹋﹋﹋﹋﹋﹋﹋﹋﹋﹋﹋﹋﹋".toList

/-- The fixed channel signature line (line 183). -/
def channelSig : Str := "🍁| @TheAnimeTimes_acn".toList

/-- The caption template of `send_to_telegram` (lines 178-184 and 189-195):
bold title, separator, summary, separator, signature. -/
def buildCaption (safeTitle safeSummary : Str) : Str :=
  "<b>".toList ++ safeTitle ++ "</b> ⚡\n".toList
    ++ sepDown ++ "\n".toList
    ++ safeSummary ++ "\n".toList
    ++ sepUp ++ "\n".toList
    ++ channelSig

/-- Python slicing `s[:n]` for a possibly negative bound `n`:
a negative bound counts from the end, clamping at the empty string. -/
def pyTake (s : Str) (n : Int) : Str :=
  if 0 ≤ n then s.take n.toNat
  else s.take ((s.length : Int) + n).toNat

/-- Line 175: `escape_html(summary) if summary else "No summary available"`. -/
def safeSummaryOf (summary : Str) : Str :=
  if summary = [] then "No summary available".toList else escape_html (PyVal.str summary)

/-- The caption actually sent by `send_to_telegram` (lines 174-195):
escape the title and summary, format, and if the result exceeds 1024
characters re-truncate the summary to `1024 - len(safe_title) - 50`
characters plus `"..."` and re-format. -/
def captionOf (title summary : Str) : Str :=
  let safeTitle := escape_html (PyVal.str title)
  let safeSummary := safeSummaryOf summary
  let caption := buildCaption safeTitle safeSummary
  if caption.length > 1024 then
    buildCaption safeTitle
      (pyTake safeSummary (1024 - (safeTitle.length : Int) - 50) ++ "...".toList)
  else caption

/-- Transport outcomes for one publish attempt: whether the image probe
succeeds (`validate_image_url`'s network part), whether `sendPhoto`
succeeds, whether `sendMessage` succeeds.  A `false` models the
corresponding `requests` call raising `RequestException`. -/
structure SendEnv where
  imageOk : Bool
  photoOk : Bool
  textOk : Bool
deriving DecidableEq

/-- Python truthiness of the optional image URL (`if not image_url`). -/
def truthy : Option Str → Bool
  | Option.none => false
  | Option.some s => !s.isEmpty

/-- Model of `validate_image_url` (lines 65-81): falsy URL yields `False` at once;
otherwise the ranged probe's outcome decides (any network error or
non-image content-type yields `False` without throwing). -/
def validate_image_url (env : SendEnv) (u : Option Str) : Bool :=
  match u with
  | Option.none => false
  | Option.some s => if s.isEmpty then false else env.imageOk

/-- Observable events of a run: an enrichment dispatch, a `sendPhoto`
transport call (with its outcome), a `sendMessage` transport call
(with its outcome), and a ledger write. -/
inductive Event where
  | fetchDetails (title : Str)
  | photoSend (title : Str) (ok : Bool)
  | textSend (title : Str) (ok : Bool)
  | save (title : Str)
deriving DecidableEq

/-- The title an event concerns. -/
def eventTitle : Event → Str
  | Event.fetchDetails t => t
  | Event.photoSend t _ => t
  | Event.textSend t _ => t
  | Event.save t => t

/-- Model of `save_posted_title` (lines 55-63): load the ledger, add the title,
write it back (set insertion; order of the persisted list is irrelevant,
we append new titles). -/
def addTitle (t : Str) (l : List Str) : List Str :=
  if t ∈ l then l else l ++ [t]

/-- The delivery and ledger part of `send_to_telegram` (lines 197-238):
if the image URL is truthy and validates, attempt photo delivery; on photo
success persist and return; on photo failure fall through; then attempt
text delivery; on text success persist; on text failure only log.  Every
transport failure is caught (`except requests.RequestException`), so the
function always returns. -/
def send_to_telegram (env : SendEnv) (title : Str) (imageUrl : Option Str)
    (ledger : List Str) : List Str × List Event :=
  let textFallback : List Event → List Str × List Event := fun pre =>
    if env.textOk then
      (addTitle title ledger, pre ++ [Event.textSend title true, Event.save title])
    else
      (ledger, pre ++ [Event.textSend title false])
  if truthy imageUrl && validate_image_url env imageUrl then
    if env.photoOk then
      (addTitle title ledger, [Event.photoSend title true, Event.save title])
    else
      textFallback [Event.photoSend title false]
  else
    textFallback []

/-- Trace checker: scanning left to right, every `save t` event is preceded
by a successful transport send of the same title `t`. -/
def savesAfterSuccess (succ : List Str) : List Event → Bool
  | [] => true
  | Event.photoSend t true :: r => savesAfterSuccess (t :: succ) r
  | Event.textSend t true :: r => savesAfterSuccess (t :: succ) r
  | Event.save t :: r => decide (t ∈ succ) && savesAfterSuccess succ r
  | _ :: r => savesAfterSuccess succ r

theorem send_events_titles (env : SendEnv) (title : Str) (imageUrl : Option Str)
    (ledger : List Str) :
    ∀ e ∈ (send_to_telegram env title imageUrl ledger).2, eventTitle e = title := by
  cases h1 : truthy imageUrl && validate_image_url env imageUrl <;>
    cases hp : env.photoOk <;> cases ht : env.textOk <;>
      simp [send_to_telegram, h1, hp, ht, eventTitle]

theorem send_ledger_mono (env : SendEnv) (title : Str) (imageUrl : Option Str)
    (ledger : List Str) :
    ledger ⊆ (send_to_telegram env title imageUrl ledger).1 := by
  cases h1 : truthy imageUrl && validate_image_url env imageUrl <;>
    cases hp : env.photoOk <;> cases ht : env.textOk <;>
      simp [send_to_telegram, h1, hp, ht, addTitle] <;> split <;>
        simp [List.subset_def] <;> tauto

theorem send_ledger_sub (env : SendEnv) (title : Str) (imageUrl : Option Str)
    (ledger : List Str) :
    (send_to_telegram env title imageUrl ledger).1 ⊆ title :: ledger := by
  cases h1 : truthy imageUrl && validate_image_url env imageUrl <;>
    cases hp : env.photoOk <;> cases ht : env.textOk <;>
      simp [send_to_telegram, h1, hp, ht, addTitle] <;> split <;>
        simp [List.subset_def] <;> tauto

/-- C1: the ledger write happens only after a successful transport call,
and when photo delivery fails (or is skipped) and text delivery fails,
the ledger is unchanged; the function returns normally in every case. -/
theorem c1_save_after_success (env : SendEnv) (title : Str) (imageUrl : Option Str)
    (ledger : List Str) :
    savesAfterSuccess [] (send_to_telegram env title imageUrl ledger).2 = true ∧
    (env.textOk = false →
      env.photoOk = false ∨ (truthy imageUrl && validate_image_url env imageUrl) = false →
      (send_to_telegram env title imageUrl ledger).1 = ledger) := by
  cases h1 : truthy imageUrl && validate_image_url env imageUrl <;>
    cases hp : env.photoOk <;> cases ht : env.textOk <;>
      simp [send_to_telegram, h1, hp, ht, savesAfterSuccess]

/-! ### Characterisation of `escape_html` -/

theorem replaceAll_append (x y : Str) (c : Char) (r : Str) :
    replaceAll (x ++ y) c r = replaceAll x c r ++ replaceAll y c r := by
  induction x with
  | nil => rfl
  | cons a s ih => simp [replaceAll, ih]

theorem escape_head (a : Char) :
    replaceAll (replaceAll (if a = '&' then "&amp;".toList else [a]) '<' ("&lt;".toList))
      '>' ("&gt;".toList) = escChar a := by
  by_cases h1 : a = '&'
  · subst h1; decide
  · by_cases h2 : a = '<'
    · subst h2; decide
    · by_cases h3 : a = '>'
      · subst h3; decide
      · rw [if_neg h1]
        rw [show replaceAll [a] '<' ("&lt;".toList) = (if a = '<' then "&lt;".toList else [a]) ++ [] from rfl]
        rw [if_neg h2, List.append_nil]
        rw [show replaceAll [a] '>' ("&gt;".toList) = (if a = '>' then "&gt;".toList else [a]) ++ [] from rfl]
        rw [if_neg h3, List.append_nil, escChar, if_neg h1, if_neg h2, if_neg h3]

theorem escape_chain (s : Str) :
    replaceAll (replaceAll (replaceAll s '&' ("&amp;".toList)) '<' ("&lt;".toList))
      '>' ("&gt;".toList) = escMap s := by
  induction s with
  | nil => rfl
  | cons a s ih =>
    rw [show replaceAll (a :: s) '&' ("&amp;".toList)
        = (if a = '&' then "&amp;".toList else [a]) ++ replaceAll s '&' ("&amp;".toList) from rfl]
    rw [replaceAll_append, replaceAll_append, ih]
    rw [show escMap (a :: s) = escChar a ++ escMap s from rfl]
    rw [escape_head]

theorem escape_html_str (s : Str) : escape_html (PyVal.str s) = escMap s := by
  by_cases h : s = []
  · subst h; rfl
  · show (if s = [] then [] else
      replaceAll (replaceAll (replaceAll s '&' ("&amp;".toList)) '<' ("&lt;".toList))
        '>' ("&gt;".toList)) = escMap s
    rw [if_neg h, escape_chain]

/-- C10: `escape_html` maps `None`, the empty string and non-string input to
the empty string, and on any string performs exactly the character-wise
substitution `& ↦ &amp;`, `< ↦ &lt;`, `> ↦ &gt;` (in an order that never
re-escapes an introduced ampersand); `send_to_telegram` formats its caption
from the escaped title and escaped summary. -/
theorem c10_escaping :
    (∀ s : Str, escape_html (PyVal.str s) = escMap s) ∧
    escape_html PyVal.none = [] ∧
    escape_html (PyVal.str []) = [] ∧
    escape_html PyVal.other = [] ∧
    (∀ title summary : Str, summary ≠ [] →
      captionOf title summary =
        (if (buildCaption (escMap title) (escMap summary)).length > 1024 then
          buildCaption (escMap title)
            (pyTake (escMap summary) (1024 - ((escMap title).length : Int) - 50)
              ++ "...".toList)
        else buildCaption (escMap title) (escMap summary))) := by
  refine ⟨escape_html_str, rfl, rfl, rfl, ?_⟩
  intro title summary hs
  simp [captionOf, safeSummaryOf, hs, escape_html_str]

/-! ### Summary extraction and truncation (`fetch_article_details`) -/

/-- Python whitespace for `str.strip()` (ASCII range). -/
def isPySpace (c : Char) : Bool :=
  c = ' ' || c = '\t' || c = '\n' || c = '\x0d' || c = '\x0b' || c = '\x0c'

/-- Python `s.strip()`. -/
def pyStrip (s : Str) : Str :=
  ((s.dropWhile isPySpace).reverse.dropWhile isPySpace).reverse

/-- Summary computation of `fetch_article_details` (line 146), with the first
paragraph modelled by its raw text `pText` (a single text node, so
`get_text(strip=True)` is `pText.strip()`): if the *raw* text is longer than
300 characters, take the first 300 characters of the *stripped* text and
append `"..."`; otherwise return the raw text verbatim. -/
def summaryOfParagraph (pText : Str) : Str :=
  if pText.length > 300 then (pyStrip pText).take 300 ++ "...".toList else pText

/-- C3 counterexample: for the 301-character text `" " ++ 300 × 'a'` the
stored summary is neither the first 300 characters of the raw text plus
`"..."` (the code truncates the stripped text instead) nor the text
verbatim under any reading. -/
theorem c3_counterexample :
    (' ' :: List.replicate 300 'a').length > 300 ∧
    summaryOfParagraph (' ' :: List.replicate 300 'a') ≠
      (' ' :: List.replicate 300 'a').take 300 ++ "...".toList ∧
    summaryOfParagraph (' ' :: List.replicate 300 'a') ≠
      (' ' :: List.replicate 300 'a') := by
  refine ⟨by simp, ?_, ?_⟩ <;> decide

/-- C3 amended: when the paragraph text carries no surrounding whitespace
(stripping is the identity), the truncation law holds as stated: text longer
than 300 characters is cut to its first 300 characters plus `"..."`, and
text of at most 300 characters is stored verbatim. -/
theorem c3_truncation (p : Str) (h : pyStrip p = p) :
    (p.length > 300 → summaryOfParagraph p = p.take 300 ++ "...".toList) ∧
    (p.length ≤ 300 → summaryOfParagraph p = p) := by
  constructor
  · intro hl
    simp [summaryOfParagraph, hl, h]
  · intro hl
    simp [summaryOfParagraph, Nat.not_lt.mpr hl]

/-- C3 witness: the amended law evaluated on a 301-character text. -/
theorem c3_witness :
    pyStrip (List.replicate 301 'b') = List.replicate 301 'b' ∧
    (List.replicate 301 'b').length > 300 ∧
    summaryOfParagraph (List.replicate 301 'b') =
      (List.replicate 301 'b').take 300 ++ "...".toList :=
  ⟨by decide, by simp, (c3_truncation (List.replicate 301 'b') (by decide)).1 (by simp)⟩

/-! ### Caption length (`send_to_telegram`, lines 178-195) -/

theorem buildCaption_length (a b : Str) :
    (buildCaption a b).length = a.length + b.length + 68 := by
  have h1 : ("<b>".toList).length = 3 := rfl
  have h2 : ("</b> ⚡\n".toList).length = 7 := rfl
  have h3 : sepDown.length = 17 := rfl
  have h4 : ("\n".toList).length = 1 := rfl
  have h5 : sepUp.length = 17 := rfl
  have h6 : channelSig.length = 21 := rfl
  simp only [buildCaption, List.length_append, h1, h2, h3, h4, h5, h6]
  omega

theorem escMap_replicate_a (n : Nat) :
    escMap (List.replicate n 'a') = List.replicate n 'a' := by
  induction n with
  | zero => rfl
  | succ n ih =>
    rw [List.replicate_succ]
    rw [show escMap ('a' :: List.replicate n 'a')
        = escChar 'a' ++ escMap (List.replicate n 'a') from rfl]
    rw [ih, show escChar 'a' = ['a'] from by decide, List.singleton_append]

/-- C4 (code bug): with a 1-character title and a 980-character summary of
plain letters, the initially formatted caption has 1049 characters, and the
re-truncation produces a caption of exactly 1045 characters — still above
the 1024-character limit the code's own comment claims to enforce (the
`- 50` budget under-counts the 68 fixed template characters plus the
3-character ellipsis). -/
theorem c4_code_bug_eval :
    (buildCaption (escape_html (PyVal.str ("T".toList)))
        (safeSummaryOf (List.replicate 980 'a'))).length = 1049 ∧
    (captionOf ("T".toList) (List.replicate 980 'a')).length = 1045 ∧
    1045 > 1024 := by
  have hT : escape_html (PyVal.str ("T".toList)) = "T".toList := by decide
  have hS : safeSummaryOf (List.replicate 980 'a') = List.replicate 980 'a' := by
    rw [safeSummaryOf, if_neg (by simp), escape_html_str, escMap_replicate_a]
  have hlen1 : (buildCaption (escape_html (PyVal.str ("T".toList)))
      (safeSummaryOf (List.replicate 980 'a'))).length = 1049 := by
    rw [hT, hS, buildCaption_length]
    simp
  refine ⟨hlen1, ?_, by omega⟩
  rw [captionOf]
  simp only [hT, hS]
  rw [if_pos (by rw [buildCaption_length]; simp)]
  rw [buildCaption_length]
  have htake : pyTake (List.replicate 980 'a')
      (1024 - ((("T".toList) : Str).length : Int) - 50) = List.replicate 973 'a' := by
    rw [pyTake, if_pos (by decide)]
    rw [show (1024 - ((("T".toList) : Str).length : Int) - 50).toNat = 973 from rfl]
    rw [List.take_replicate]
    norm_num
  rw [htake]
  simp [List.length_append]

/-! ### Data model: candidate entries and enrichment details -/

/-- The site root used to resolve relative links (line 24). -/
def baseUrl : Str := "https://www.animenewsnetwork.com".toList

/-- A candidate entry scraped from the feed (title, detail link, raw
thumbnail `data-src`). -/
structure NewsItem where
  title : Str
  articleUrl : Option Str
  thumb : Option Str
deriving DecidableEq

/-- Enrichment result: optional absolute image URL and summary text. -/
structure Details where
  image : Option Str
  summary : Str
deriving DecidableEq

/-- The detail page as far as `fetch_article_details` observes it: the raw
text of the first paragraph of the content container, when both exist. -/
structure ArticleDoc where
  firstParagraph : Option Str
deriving DecidableEq

/-- Outcome of the detail-page GET: a `RequestException` or a parsed page. -/
inductive DetailFetch where
  | reqError
  | ok (doc : ArticleDoc)
deriving DecidableEq

/-- Image extraction of `fetch_article_details` (lines 131-135): a missing
or falsy `data-src` yields no image; a relative source is resolved against
the site root, an absolute (`http...`) source is kept as is. -/
def resolveThumb : Option Str → Option Str
  | Option.none => Option.none
  | Option.some img =>
    if img.isEmpty then Option.none
    else Option.some (if ("http".toList).isPrefixOf img then img else baseUrl ++ img)

/-- The sentinel summary (line 129). -/
def defaultSummary : Str := "No summary available.".toList

/-- Model of `fetch_article_details` (lines 126-150): extract the image from the
thumbnail, then — when a detail URL exists and its GET succeeds and the
content container has a first paragraph — compute the truncated summary;
a `RequestException` during the GET is caught and leaves the sentinel
summary in place. -/
def fetch_article_details (thumb : Option Str) (articleUrl : Option Str)
    (f : DetailFetch) : Details :=
  let image := resolveThumb thumb
  match articleUrl with
  | Option.none => { image := image, summary := defaultSummary }
  | Option.some _ =>
    match f with
    | DetailFetch.reqError => { image := image, summary := defaultSummary }
    | DetailFetch.ok doc =>
      match doc.firstParagraph with
      | Option.none => { image := image, summary := defaultSummary }
      | Option.some p => { image := image, summary := summaryOfParagraph p }

/-! ### Feed fetch and the retry decorator (C5) -/

/-- Outcome of one homepage GET: a `RequestException` (covering network
errors and non-2xx statuses via `raise_for_status`) or a parsed feed,
abstracted as the resulting candidate list. -/
inductive FeedFetch where
  | reqError
  | ok (news : List NewsItem)

/-- The body of `fetch_anime_news` (lines 84-123): the whole body is wrapped
in `try/except requests.RequestException`, whose handler returns `[]` — so
the body never lets a transport error escape. `o n` is the outcome of the
GET on attempt `n`. -/
def fetch_anime_news_body (o : Nat → FeedFetch) (n : Nat) :
    Except Unit (List NewsItem) :=
  Except.ok (match o n with
    | FeedFetch.reqError => []
    | FeedFetch.ok l => l)

/-- The `tenacity` `@retry(stop=stop_after_attempt(3), ...)` decorator:
invoke the wrapped callable; on an escaping exception re-invoke it, up to
`fuel` attempts in total, then re-raise.  Returns the result together with
the number of attempts used (`k` counts attempts already made). -/
def retryCall {α : Type} (f : Nat → Except Unit α) : Nat → Nat → Except Unit α × Nat
  | 0, k => (Except.error (), k)
  | 1, k =>
    (match f k with
     | Except.ok a => (Except.ok a, k + 1)
     | Except.error e => (Except.error e, k + 1))
  | Nat.succ (Nat.succ fuel), k =>
    match f k with
    | Except.ok a => (Except.ok a, k + 1)
    | Except.error _ => retryCall f (Nat.succ fuel) (k + 1)

/-- Model of `fetch_anime_news` as deployed: the retry decorator around the body. -/
def fetch_anime_news (o : Nat → FeedFetch) : Except Unit (List NewsItem) × Nat :=
  retryCall (fetch_anime_news_body o) 3 0

/-- The body never raises, so the decorator always stops after one attempt:
the retry policy is unreachable for transport errors. -/
theorem fetch_news_single_attempt (o : Nat → FeedFetch) :
    ∃ r, fetch_anime_news o = (Except.ok r, 1) := by
  refine ⟨(match o 0 with | FeedFetch.reqError => [] | FeedFetch.ok l => l), ?_⟩
  rfl

/-- C5 (code bug): when every GET raises a transport error, the function
returns the empty list after exactly one attempt — the internal
`except requests.RequestException: return []` swallows the error before
the `@retry` decorator can see it, so no second or third attempt and no
backoff ever happens. -/
theorem c5_code_bug_eval :
    fetch_anime_news (fun _ => FeedFetch.reqError) = (Except.ok [], 1) ∧
    (1 : Nat) ≠ 3 := ⟨rfl, by decide⟩

/-! ### The persisted ledger file (C9) -/

/-- Python exceptions relevant to `load_posted_titles`. -/
inductive PyExc where
  | osError
  | jsonDecodeError
deriving DecidableEq

/-- Content of the ledger file as `json.load` sees it. -/
inductive JsonData where
  | malformed
  | list (ts : List Str)

/-- State of the ledger file on disk. -/
inductive FsFile where
  | absent
  | unreadable
  | content (data : JsonData)

/-- The body of the `try` block of `load_posted_titles` (lines 47-50):
`os.path.exists` yields `none` for an absent file; opening an unreadable
file raises `OSError`; `json.load` on malformed content raises
`JSONDecodeError`; otherwise the stored list is returned. -/
def openAndParse : FsFile → Except PyExc (Option (List Str))
  | FsFile.absent => Except.ok Option.none
  | FsFile.unreadable => Except.error PyExc.osError
  | FsFile.content JsonData.malformed => Except.error PyExc.jsonDecodeError
  | FsFile.content (JsonData.list ts) => Except.ok (Option.some ts)

/-- Model of `load_posted_titles` (lines 44-53): the `except` clause catches only
`json.JSONDecodeError` (returning the empty set); any other exception —
in particular an `OSError` from an unreadable file — propagates. -/
def load_posted_titles (f : FsFile) : Except PyExc (List Str) :=
  match openAndParse f with
  | Except.ok Option.none => Except.ok []
  | Except.ok (Option.some ts) => Except.ok ts
  | Except.error PyExc.jsonDecodeError => Except.ok []
  | Except.error e => Except.error e

/-- C9 counterexample: a ledger file that exists but cannot be read makes
`load_posted_titles` raise an uncaught `OSError` instead of yielding the
empty set — refuting the claim for the "unreadable" case. -/
theorem c9_counterexample :
    load_posted_titles FsFile.unreadable = Except.error PyExc.osError := rfl

/-- C9 amended: an absent ledger file or one whose content fails JSON
decoding yields the empty set without raising; a stored list is returned
as is.  (An unreadable file, by contrast, raises.) -/
theorem c9_load_recovery :
    load_posted_titles FsFile.absent = Except.ok [] ∧
    load_posted_titles (FsFile.content JsonData.malformed) = Except.ok [] ∧
    (∀ ts, load_posted_titles (FsFile.content (JsonData.list ts)) = Except.ok ts) :=
  ⟨rfl, rfl, fun _ => rfl⟩

/-! ### Concurrent enrichment (`fetch_selected_articles`) and the run

The worker pool is modelled by an oracle `oracle i` giving the enrichment
outcome of the entry at feed position `i` (`Except.error` = the future
raised / timed out), and by `completion`, the dispatched positions listed
in the order their futures complete.  The result-collection loop of the
source iterates the `futures` dict in submission order and assigns each
result to its own entry (`futures[future]`), which the model renders as an
association-list lookup keyed by position — so the completion order can be
an arbitrary permutation of the dispatched positions. -/

/-- Degraded entry fields set by the per-future `except` handler
(lines 166-170). -/
def degradeDetails : Details :=
  { image := Option.none, summary := "Failed to fetch summary.".toList }

/-- Result of one enrichment unit: the future's value, or the degraded
fields when it raised. -/
def enrichOne : Except Unit Details → Details
  | Except.ok d => d
  | Except.error _ => degradeDetails

/-- The feed list with positions attached, starting at `k`. -/
def withIdx : Nat → List NewsItem → List (Nat × NewsItem)
  | _, [] => []
  | k, n :: r => (k, n) :: withIdx (k + 1) r

/-- Positions of the entries submitted to the pool: those whose title is
not in the ledger (line 155). -/
def dispatchedIdx (ledger : List Str) (newsList : List NewsItem) : List Nat :=
  ((withIdx 0 newsList).filter (fun p => !decide (p.2.title ∈ ledger))).map Prod.fst

/-- Model of `fetch_selected_articles` (lines 152-170): filter out already-posted
titles, dispatch the rest, and assign each completed future's result (or
the degraded fields) back to its entry.  Returns the entries paired with
their enrichment fields (`none` = the keys were never assigned) and the
dispatch events. -/
def fetch_selected_articles (oracle : Nat → Except Unit Details)
    (completion : List Nat) (ledger : List Str) (newsList : List NewsItem) :
    List (NewsItem × Option Details) × List Event :=
  let assoc := completion.map (fun i => (i, enrichOne (oracle i)))
  ((withIdx 0 newsList).map (fun p =>
      if p.2.title ∈ ledger then (p.2, Option.none) else (p.2, assoc.lookup p.1)),
   ((withIdx 0 newsList).filter (fun p => !decide (p.2.title ∈ ledger))).map
     (fun p => Event.fetchDetails p.2.title))

/-- The publishing loop of `run_once` (lines 250-253): reload the ledger
before each entry, skip already-posted titles, otherwise publish via
`send_to_telegram`.  Accessing the enrichment fields of an entry that was
never assigned them raises `KeyError`, modelled as `Except.error`. -/
def publishLoop (env : Str → SendEnv) :
    List (NewsItem × Option Details) → List Str → Except Unit (List Str × List Event)
  | [], ledger => Except.ok (ledger, [])
  | (item, dOpt) :: rest, ledger =>
    if item.title ∈ ledger then publishLoop env rest ledger
    else
      match dOpt with
      | Option.none => Except.error ()
      | Option.some d =>
        let r := send_to_telegram (env item.title) item.title d.image ledger
        match publishLoop env rest r.1 with
        | Except.ok (lf, evs2) => Except.ok (lf, r.2 ++ evs2)
        | Except.error e => Except.error e

/-- Model of `run_once` (lines 240-253), parameterised by the already-fetched feed
list: an empty feed ends the run; otherwise enrich concurrently, then
publish sequentially in feed order. -/
def run_once (oracle : Nat → Except Unit Details) (completion : List Nat)
    (env : Str → SendEnv) (newsList : List NewsItem) (ledger : List Str) :
    Except Unit (List Str × List Event) :=
  if newsList.isEmpty then Except.ok (ledger, [])
  else
    let fr := fetch_selected_articles oracle completion ledger newsList
    match publishLoop env fr.1 ledger with
    | Except.ok (lf, evs2) => Except.ok (lf, fr.2 ++ evs2)
    | Except.error e => Except.error e

/-- Transport delivery calls (photo or text sends). -/
def isDelivery : Event → Bool
  | Event.photoSend _ _ => true
  | Event.textSend _ _ => true
  | _ => false

/-- The delivery calls of a trace, in order. -/
def deliveryEvents (evs : List Event) : List Event := evs.filter isDelivery

/-! ### Basic lemmas about the enrichment model -/

theorem lookup_map_self {β : Type} (l : List Nat) (f : Nat → β) (i : Nat)
    (h : i ∈ l) : (l.map (fun j => (j, f j))).lookup i = Option.some (f i) := by
  induction l with
  | nil => cases h
  | cons a r ih =>
    rw [List.map_cons]
    by_cases hai : i = a
    · subst hai; simp [List.lookup]
    · have hr : i ∈ r := by
        rcases List.mem_cons.mp h with h' | h'
        · exact absurd h' hai
        · exact h'
      have hba : (i == a) = false := by simp [hai]
      simp [List.lookup, hba, ih hr]

theorem withIdx_append (k : Nat) (l₁ l₂ : List NewsItem) :
    withIdx k (l₁ ++ l₂) = withIdx k l₁ ++ withIdx (k + l₁.length) l₂ := by
  induction l₁ generalizing k with
  | nil => simp [withIdx]
  | cons a r ih =>
    show (k, a) :: withIdx (k + 1) (r ++ l₂)
      = ((k, a) :: withIdx (k + 1) r) ++ withIdx (k + (r.length + 1)) l₂
    rw [List.cons_append, ih (k + 1)]
    have h : k + 1 + r.length = k + (r.length + 1) := by omega
    rw [h]

theorem mem_withIdx (k : Nat) (l : List NewsItem) (p : Nat × NewsItem)
    (h : p ∈ withIdx k l) : p.2 ∈ l := by
  induction l generalizing k with
  | nil => cases h
  | cons a r ih =>
    rcases List.mem_cons.mp h with h' | h'
    · subst h'; exact List.mem_cons_self _ _
    · exact List.mem_cons_of_mem _ (ih (k + 1) h')

/-- Under a valid completion order (a permutation of the dispatched
positions) every dispatched entry receives exactly the result of its own
future, regardless of that order. -/
theorem fetch_selected_fst (oracle : Nat → Except Unit Details)
    (completion : List Nat) (ledger : List Str) (newsList : List NewsItem)
    (hperm : completion.Perm (dispatchedIdx ledger newsList)) :
    (fetch_selected_articles oracle completion ledger newsList).1 =
      (withIdx 0 newsList).map (fun p =>
        if p.2.title ∈ ledger then (p.2, Option.none)
        else (p.2, Option.some (enrichOne (oracle p.1)))) := by
  apply List.map_congr_left
  intro p hp
  by_cases h : p.2.title ∈ ledger
  · simp [h]
  · have hdisp : p.1 ∈ dispatchedIdx ledger newsList := by
      exact List.mem_map_of_mem Prod.fst (List.mem_filter.mpr ⟨hp, by simp [h]⟩)
    have hc : p.1 ∈ completion := hperm.mem_iff.mpr hdisp
    simp [h, lookup_map_self completion (fun i => enrichOne (oracle i)) p.1 hc]

/-! ### Lemmas about the publishing loop -/

theorem mem_addTitle_self (t : Str) (l : List Str) : t ∈ addTitle t l := by
  by_cases h : t ∈ l <;> simp [addTitle, h]

theorem send_textOk_saves (env : SendEnv) (t : Str) (u : Option Str) (l : List Str)
    (h : env.textOk = true) :
    (send_to_telegram env t u l).1 = addTitle t l := by
  cases h1 : truthy u && validate_image_url env u <;> cases hp : env.photoOk <;>
    simp [send_to_telegram, h1, hp, h]

/-- When every entry that is not already covered by `L0` has its enrichment
fields assigned, and `L0` is contained in the current ledger, the loop
completes normally; the ledger grows monotonically, gains only processed
titles, and every emitted event concerns a title outside the initial
ledger. -/
theorem publishLoop_spec (env : Str → SendEnv) (L0 : List Str)
    (entries : List (NewsItem × Option Details)) :
    ∀ ledger : List Str,
      (∀ e ∈ entries, e.2.isSome = true ∨ e.1.title ∈ L0) →
      (∀ x ∈ L0, x ∈ ledger) →
      ∃ lf evs, publishLoop env entries ledger = Except.ok (lf, evs) ∧
        (∀ x ∈ ledger, x ∈ lf) ∧
        (∀ x ∈ lf, x ∈ ledger ∨ x ∈ entries.map (fun e => e.1.title)) ∧
        (∀ ev ∈ evs, eventTitle ev ∉ ledger) := by
  induction entries with
  | nil =>
    intro ledger _ _
    exact ⟨ledger, [], rfl, fun x hx => hx, fun x hx => Or.inl hx, by simp⟩
  | cons e rest ih =>
    obtain ⟨item, dOpt⟩ := e
    intro ledger hd hsub
    by_cases hmem : item.title ∈ ledger
    · obtain ⟨lf, evs, heq, hmono, hsup, hfresh⟩ :=
        ih ledger (fun e he => hd e (List.mem_cons_of_mem _ he)) hsub
      refine ⟨lf, evs, ?_, hmono, ?_, hfresh⟩
      · simp only [publishLoop]
        rw [if_pos hmem, heq]
      · intro x hx
        rcases hsup x hx with h | h
        · exact Or.inl h
        · exact Or.inr (by simp only [List.map_cons]; exact List.mem_cons_of_mem _ h)
    · have hdet : dOpt.isSome = true := by
        rcases hd (item, dOpt) (List.mem_cons_self _ _) with h | h
        · exact h
        · exact absurd (hsub _ h) hmem
      obtain ⟨d, hdeq⟩ := Option.isSome_iff_exists.mp hdet
      subst hdeq
      have hmono1 := send_ledger_mono (env item.title) item.title d.image ledger
      have hsub1 := send_ledger_sub (env item.title) item.title d.image ledger
      obtain ⟨lf, evs, heq, hmono2, hsup2, hfresh2⟩ :=
        ih (send_to_telegram (env item.title) item.title d.image ledger).1
          (fun e he => hd e (List.mem_cons_of_mem _ he))
          (fun x hx => hmono1 (hsub x hx))
      refine ⟨lf, (send_to_telegram (env item.title) item.title d.image ledger).2 ++ evs,
        ?_, ?_, ?_, ?_⟩
      · simp only [publishLoop]
        rw [if_neg hmem]
        show (match publishLoop env rest
            (send_to_telegram (env item.title) item.title d.image ledger).1 with
          | Except.ok (lf, evs2) => Except.ok (lf,
              (send_to_telegram (env item.title) item.title d.image ledger).2 ++ evs2)
          | Except.error e => Except.error e) = _
        rw [heq]
      · exact fun x hx => hmono2 x (hmono1 hx)
      · intro x hx
        rcases hsup2 x hx with h | h
        · rcases List.mem_cons.mp (hsub1 h) with h' | h'
          · exact Or.inr (by simp only [List.map_cons]; exact h' ▸ List.mem_cons_self _ _)
          · exact Or.inl h'
        · exact Or.inr (by simp only [List.map_cons]; exact List.mem_cons_of_mem _ h)
      · intro ev hev
        rcases List.mem_append.mp hev with h | h
        · rw [send_events_titles (env item.title) item.title d.image ledger ev h]
          exact hmem
        · exact fun hx => hfresh2 ev h (hmono1 hx)

/-- Entries whose titles are all already in the ledger are all skipped:
no events, ledger unchanged. -/
theorem publishLoop_allIn (env : Str → SendEnv)
    (entries : List (NewsItem × Option Details)) :
    ∀ ledger : List Str, (∀ e ∈ entries, e.1.title ∈ ledger) →
      publishLoop env entries ledger = Except.ok (ledger, []) := by
  induction entries with
  | nil => intro ledger _; rfl
  | cons e rest ih =>
    obtain ⟨item, dOpt⟩ := e
    intro ledger hall
    simp only [publishLoop]
    rw [if_pos (hall (item, dOpt) (List.mem_cons_self _ _))]
    exact ih ledger (fun e he => hall e (List.mem_cons_of_mem _ he))

/-- When every text delivery succeeds, the loop completes and every
processed entry's title ends up in the final ledger. -/
theorem publishLoop_allSaved (env : Str → SendEnv)
    (htext : ∀ t, (env t).textOk = true) (L0 : List Str)
    (entries : List (NewsItem × Option Details)) :
    ∀ ledger : List Str,
      (∀ e ∈ entries, e.2.isSome = true ∨ e.1.title ∈ L0) →
      (∀ x ∈ L0, x ∈ ledger) →
      ∃ lf evs, publishLoop env entries ledger = Except.ok (lf, evs) ∧
        (∀ x ∈ ledger, x ∈ lf) ∧
        (∀ e ∈ entries, e.1.title ∈ lf) := by
  induction entries with
  | nil => intro ledger _ _; exact ⟨ledger, [], rfl, fun x hx => hx, by simp⟩
  | cons e rest ih =>
    obtain ⟨item, dOpt⟩ := e
    intro ledger hd hsub
    by_cases hmem : item.title ∈ ledger
    · obtain ⟨lf, evs, heq, hmono, hall⟩ :=
        ih ledger (fun e he => hd e (List.mem_cons_of_mem _ he)) hsub
      refine ⟨lf, evs, ?_, hmono, ?_⟩
      · simp only [publishLoop]; rw [if_pos hmem, heq]
      · intro e he
        rcases List.mem_cons.mp he with h | h
        · subst h; exact hmono _ hmem
        · exact hall e h
    · have hdet : dOpt.isSome = true := by
        rcases hd (item, dOpt) (List.mem_cons_self _ _) with h | h
        · exact h
        · exact absurd (hsub _ h) hmem
      obtain ⟨d, hdeq⟩ := Option.isSome_iff_exists.mp hdet
      subst hdeq
      have hsave := send_textOk_saves (env item.title) item.title d.image ledger
        (htext item.title)
      have hmono1 := send_ledger_mono (env item.title) item.title d.image ledger
      obtain ⟨lf, evs, heq, hmono2, hall⟩ :=
        ih (send_to_telegram (env item.title) item.title d.image ledger).1
          (fun e he => hd e (List.mem_cons_of_mem _ he))
          (fun x hx => hmono1 (hsub x hx))
      refine ⟨lf, (send_to_telegram (env item.title) item.title d.image ledger).2 ++ evs,
        ?_, fun x hx => hmono2 x (hmono1 hx), ?_⟩
      · simp only [publishLoop]
        rw [if_neg hmem]
        show (match publishLoop env rest
            (send_to_telegram (env item.title) item.title d.image ledger).1 with
          | Except.ok (lf, evs2) => Except.ok (lf,
              (send_to_telegram (env item.title) item.title d.image ledger).2 ++ evs2)
          | Except.error e => Except.error e) = _
        rw [heq]
      · intro e he
        rcases List.mem_cons.mp he with h | h
        · subst h
          exact hmono2 _ (by rw [hsave]; exact mem_addTitle_self _ _)
        · exact hall e h

theorem subset_addTitle (t : Str) (l : List Str) : l ⊆ addTitle t l := by
  by_cases h : t ∈ l
  · simp [addTitle, h]
  · simp only [addTitle, if_neg h]
    exact List.subset_append_left l [t]

theorem publishLoop_cons_new (env : Str → SendEnv) (item : NewsItem) (d : Details)
    (rest : List (NewsItem × Option Details)) (ledger : List Str)
    (hmem : item.title ∉ ledger) :
    publishLoop env ((item, Option.some d) :: rest) ledger
      = match publishLoop env rest
          (send_to_telegram (env item.title) item.title d.image ledger).1 with
        | Except.ok (lf, evs2) => Except.ok (lf,
            (send_to_telegram (env item.title) item.title d.image ledger).2 ++ evs2)
        | Except.error e => Except.error e := by
  simp only [publishLoop]
  rw [if_neg hmem]

/-- Every dispatch event of `fetch_selected_articles` is a `fetchDetails`
for a title outside the ledger it was filtered against. -/
theorem fetch_selected_events (oracle : Nat → Except Unit Details)
    (completion : List Nat) (ledger : List Str) (newsList : List NewsItem) :
    ∀ ev ∈ (fetch_selected_articles oracle completion ledger newsList).2,
      (∃ t, ev = Event.fetchDetails t) ∧ eventTitle ev ∉ ledger := by
  intro ev hev
  have hev' : ev ∈ ((withIdx 0 newsList).filter
      (fun p => !decide (p.2.title ∈ ledger))).map
      (fun p => Event.fetchDetails p.2.title) := hev
  obtain ⟨p, hp, rfl⟩ := List.mem_map.mp hev'
  have hfilter := List.mem_filter.mp hp
  refine ⟨⟨p.2.title, rfl⟩, ?_⟩
  simpa [eventTitle] using hfilter.2

/-- Every enriched entry either has its fields assigned or was already
covered by the ledger used for filtering (given a valid completion order). -/
theorem enriched_details_present (oracle : Nat → Except Unit Details)
    (completion : List Nat) (L0 : List Str) (newsList : List NewsItem)
    (hperm : completion.Perm (dispatchedIdx L0 newsList)) :
    ∀ e ∈ (fetch_selected_articles oracle completion L0 newsList).1,
      e.2.isSome = true ∨ e.1.title ∈ L0 := by
  rw [fetch_selected_fst oracle completion L0 newsList hperm]
  intro e he
  obtain ⟨p, hp, rfl⟩ := List.mem_map.mp he
  by_cases h : p.2.title ∈ L0
  · simp [h]
  · simp [h]

theorem mem_withIdx_of_mem (k : Nat) (l : List NewsItem) (n : NewsItem)
    (h : n ∈ l) : ∃ i, (i, n) ∈ withIdx k l := by
  induction l generalizing k with
  | nil => cases h
  | cons a r ih =>
    rcases List.mem_cons.mp h with h' | h'
    · exact ⟨k, by rw [h']; exact List.mem_cons_self _ _⟩
    · obtain ⟨i, hi⟩ := ih h' (k := k + 1)
      exact ⟨i, List.mem_cons_of_mem _ hi⟩

/-- C1 witness: with every transport call failing and no image, the ledger
is unchanged and the trace checker accepts. -/
theorem c1_witness :
    savesAfterSuccess []
      (send_to_telegram ⟨false, false, false⟩ ("t".toList) Option.none []).2 = true ∧
    (send_to_telegram ⟨false, false, false⟩ ("t".toList) Option.none []).1 = [] :=
  ⟨(c1_save_after_success ⟨false, false, false⟩ ("t".toList) Option.none []).1,
   (c1_save_after_success ⟨false, false, false⟩ ("t".toList) Option.none []).2
     rfl (Or.inl rfl)⟩

/-- C2: for a title already in the ledger at lookup time, the run completes
normally and no event at all — neither an enrichment dispatch nor any
transport call nor a ledger write — concerns that title. -/
theorem c2_dedup (oracle : Nat → Except Unit Details) (completion : List Nat)
    (env : Str → SendEnv) (newsList : List NewsItem) (L0 : List Str) (t : Str)
    (ht : t ∈ L0)
    (hperm : completion.Perm (dispatchedIdx L0 newsList)) :
    ∃ lf evs, run_once oracle completion env newsList L0 = Except.ok (lf, evs) ∧
      ∀ ev ∈ evs, eventTitle ev ≠ t := by
  by_cases hemp : newsList.isEmpty
  · exact ⟨L0, [], by simp [run_once, hemp], by simp⟩
  · obtain ⟨lf, evs2, heq, _, _, hfresh⟩ :=
      publishLoop_spec env L0 (fetch_selected_articles oracle completion L0 newsList).1 L0
        (enriched_details_present oracle completion L0 newsList hperm)
        (fun x hx => hx)
    refine ⟨lf, (fetch_selected_articles oracle completion L0 newsList).2 ++ evs2, ?_, ?_⟩
    · simp only [run_once, hemp]
      rw [heq]
      simp
    · intro ev hev
      rcases List.mem_append.mp hev with h | h
      · have := (fetch_selected_events oracle completion L0 newsList ev h).2
        exact fun hteq => this (hteq ▸ ht)
      · exact fun hteq => hfresh ev h (hteq ▸ ht)

/-- C2 witness: a one-entry feed whose title is already in the ledger
produces a run with no events. -/
theorem c2_witness :
    ∃ lf evs, run_once (fun _ => Except.error ()) []
        (fun _ => ⟨false, false, false⟩)
        [{ title := "A".toList, articleUrl := Option.none, thumb := Option.none }]
        ["A".toList] = Except.ok (lf, evs) ∧
      ∀ ev ∈ evs, eventTitle ev ≠ "A".toList :=
  c2_dedup (fun _ => Except.error ()) [] (fun _ => ⟨false, false, false⟩)
    [{ title := "A".toList, articleUrl := Option.none, thumb := Option.none }]
    ["A".toList] ("A".toList) (by simp) (by decide)

/-- After a first run in which every delivery succeeded, every feed title
is in the resulting ledger. -/
theorem run_once_saturates (oracle : Nat → Except Unit Details)
    (completion : List Nat) (env : Str → SendEnv)
    (newsList : List NewsItem) (L0 : List Str)
    (hperm : completion.Perm (dispatchedIdx L0 newsList))
    (htext : ∀ t, (env t).textOk = true)
    (hne : newsList.isEmpty = false) :
    ∃ l1 evs1, run_once oracle completion env newsList L0 = Except.ok (l1, evs1) ∧
      (∀ x ∈ L0, x ∈ l1) ∧
      (∀ n ∈ newsList, n.title ∈ l1) := by
  obtain ⟨l1, evs2, heq, hmono, hall⟩ :=
    publishLoop_allSaved env htext L0
      (fetch_selected_articles oracle completion L0 newsList).1
      L0 (enriched_details_present oracle completion L0 newsList hperm)
      (fun x hx => hx)
  refine ⟨l1, (fetch_selected_articles oracle completion L0 newsList).2 ++ evs2,
    ?_, hmono, ?_⟩
  · simp only [run_once, hne]
    rw [heq]
    simp
  · intro n hn
    obtain ⟨i, hi⟩ := mem_withIdx_of_mem 0 newsList n hn
    have hg : ((fun (p : Nat × NewsItem) =>
        if p.2.title ∈ L0 then (p.2, (Option.none : Option Details))
        else (p.2, Option.some (enrichOne (oracle p.1)))) (i, n)).1.title ∈ l1 := by
      apply hall
      rw [fetch_selected_fst oracle completion L0 newsList hperm]
      exact List.mem_map_of_mem _ hi
    by_cases h : n.title ∈ L0
    · simpa [h] using hg
    · simpa [h] using hg

/-- C8: running the pipeline again on an unchanged feed, starting from the
ledger persisted by a fully successful first run, publishes nothing: the
second run produces no events at all and leaves the ledger unchanged. -/
theorem c8_idempotence (oracle1 oracle2 : Nat → Except Unit Details)
    (completion1 completion2 : List Nat) (env1 env2 : Str → SendEnv)
    (newsList : List NewsItem) (L0 : List Str)
    (hperm1 : completion1.Perm (dispatchedIdx L0 newsList))
    (htext : ∀ t, (env1 t).textOk = true) :
    ∃ l1 evs1, run_once oracle1 completion1 env1 newsList L0 = Except.ok (l1, evs1) ∧
      run_once oracle2 completion2 env2 newsList l1 = Except.ok (l1, []) := by
  by_cases hemp : newsList.isEmpty
  · exact ⟨L0, [], by simp [run_once, hemp], by simp [run_once, hemp]⟩
  · obtain ⟨l1, evs1, heq1, _, hall⟩ :=
      run_once_saturates oracle1 completion1 env1 newsList L0 hperm1 htext
        (Bool.not_eq_true _ ▸ Bool.of_not_eq_true hemp)
    refine ⟨l1, evs1, heq1, ?_⟩
    have hall' : ∀ e ∈ (fetch_selected_articles oracle2 completion2 l1 newsList).1,
        e.1.title ∈ l1 := by
      intro e he
      have he' : e ∈ (withIdx 0 newsList).map (fun p =>
          if p.2.title ∈ l1 then (p.2, (Option.none : Option Details))
          else (p.2, ((completion2.map (fun i => (i, enrichOne (oracle2 i)))).lookup p.1))) := he
      obtain ⟨p, hp, rfl⟩ := List.mem_map.mp he'
      have hpt : p.2.title ∈ l1 := hall p.2 (mem_withIdx 0 newsList p hp)
      by_cases h : p.2.title ∈ l1
      · simp [h]
      · exact absurd hpt h
    have hloop := publishLoop_allIn env2
      (fetch_selected_articles oracle2 completion2 l1 newsList).1 l1 hall'
    have hev2 : (fetch_selected_articles oracle2 completion2 l1 newsList).2 = [] := by
      have : (withIdx 0 newsList).filter (fun p => !decide (p.2.title ∈ l1)) = [] := by
        rw [List.filter_eq_nil_iff]
        intro p hp
        simp [hall p.2 (mem_withIdx 0 newsList p hp)]
      show ((withIdx 0 newsList).filter (fun p => !decide (p.2.title ∈ l1))).map
        (fun p => Event.fetchDetails p.2.title) = []
      rw [this]
      rfl
    simp only [run_once, hemp]
    rw [hloop, hev2]
    simp

/-- C8 witness: a one-entry feed, first run with all transports succeeding
from an empty ledger, second run publishing nothing. -/
theorem c8_witness :
    ∃ l1 evs1, run_once (fun _ => Except.ok ⟨Option.none, "s".toList⟩) [0]
        (fun _ => ⟨true, true, true⟩)
        [{ title := "A".toList, articleUrl := Option.none, thumb := Option.none }]
        [] = Except.ok (l1, evs1) ∧
      run_once (fun _ => Except.error ()) []
        (fun _ => ⟨false, false, false⟩)
        [{ title := "A".toList, articleUrl := Option.none, thumb := Option.none }]
        l1 = Except.ok (l1, []) :=
  c8_idempotence (fun _ => Except.ok ⟨Option.none, "s".toList⟩)
    (fun _ => Except.error ()) [0] [] (fun _ => ⟨true, true, true⟩)
    (fun _ => ⟨false, false, false⟩)
    [{ title := "A".toList, articleUrl := Option.none, thumb := Option.none }]
    [] (by decide) (fun _ => rfl)

/-- Each `send_to_telegram` call makes at least one transport delivery
call, and all its delivery calls concern its own title. -/
theorem send_delivery_block (env : SendEnv) (t : Str) (u : Option Str) (l : List Str) :
    deliveryEvents (send_to_telegram env t u l).2 ≠ [] ∧
    ∀ e ∈ deliveryEvents (send_to_telegram env t u l).2, eventTitle e = t := by
  refine ⟨?_, ?_⟩
  · cases h1 : truthy u && validate_image_url env u <;> cases hp : env.photoOk <;>
      cases ht : env.textOk <;>
        simp [send_to_telegram, deliveryEvents, isDelivery, h1, hp, ht]
  · intro e he
    exact send_events_titles env t u l e (List.mem_filter.mp he).1

/-- C7: on a feed `[a, b, c]` of three new entries with distinct titles,
the run completes and its transport delivery calls form three consecutive
non-empty blocks for `a`, `b`, `c` in feed order — for every completion
order of the enrichment futures. -/
theorem c7_feed_order (a b c : NewsItem) (oracle : Nat → Except Unit Details)
    (completion : List Nat) (env : Str → SendEnv) (L0 : List Str)
    (hab : a.title ≠ b.title) (hac : a.title ≠ c.title) (hbc : b.title ≠ c.title)
    (ha : a.title ∉ L0) (hb : b.title ∉ L0) (hc : c.title ∉ L0)
    (hperm : completion.Perm (dispatchedIdx L0 [a, b, c])) :
    ∃ lf evs dA dB dC,
      run_once oracle completion env [a, b, c] L0 = Except.ok (lf, evs) ∧
      deliveryEvents evs = dA ++ dB ++ dC ∧
      dA ≠ [] ∧ dB ≠ [] ∧ dC ≠ [] ∧
      (∀ e ∈ dA, eventTitle e = a.title) ∧
      (∀ e ∈ dB, eventTitle e = b.title) ∧
      (∀ e ∈ dC, eventTitle e = c.title) := by
  have hE : (fetch_selected_articles oracle completion L0 [a, b, c]).1
      = [(a, Option.some (enrichOne (oracle 0))), (b, Option.some (enrichOne (oracle 1))),
         (c, Option.some (enrichOne (oracle 2)))] := by
    rw [fetch_selected_fst oracle completion L0 [a, b, c] hperm]
    simp [withIdx, ha, hb, hc]
  have hE2 : (fetch_selected_articles oracle completion L0 [a, b, c]).2
      = [Event.fetchDetails a.title, Event.fetchDetails b.title,
         Event.fetchDetails c.title] := by
    show ((withIdx 0 [a, b, c]).filter (fun p => !decide (p.2.title ∈ L0))).map
      (fun p => Event.fetchDetails p.2.title) = _
    simp [withIdx, ha, hb, hc]
  have hb1 : b.title ∉
      (send_to_telegram (env a.title) a.title (enrichOne (oracle 0)).image L0).1 := by
    intro h
    rcases List.mem_cons.mp
      (send_ledger_sub (env a.title) a.title (enrichOne (oracle 0)).image L0 h) with h' | h'
    · exact hab h'.symm
    · exact hb h'
  have hc2 : c.title ∉
      (send_to_telegram (env b.title) b.title (enrichOne (oracle 1)).image
        (send_to_telegram (env a.title) a.title (enrichOne (oracle 0)).image L0).1).1 := by
    intro h
    rcases List.mem_cons.mp (send_ledger_sub _ _ _ _ h) with h' | h'
    · exact hbc h'.symm
    · rcases List.mem_cons.mp (send_ledger_sub _ _ _ _ h') with h'' | h''
      · exact hac h''.symm
      · exact hc h''
  have h3 : publishLoop env [(c, Option.some (enrichOne (oracle 2)))]
      (send_to_telegram (env b.title) b.title (enrichOne (oracle 1)).image
        (send_to_telegram (env a.title) a.title (enrichOne (oracle 0)).image L0).1).1
      = Except.ok
        ((send_to_telegram (env c.title) c.title (enrichOne (oracle 2)).image
          (send_to_telegram (env b.title) b.title (enrichOne (oracle 1)).image
            (send_to_telegram (env a.title) a.title (enrichOne (oracle 0)).image L0).1).1).1,
         (send_to_telegram (env c.title) c.title (enrichOne (oracle 2)).image
          (send_to_telegram (env b.title) b.title (enrichOne (oracle 1)).image
            (send_to_telegram (env a.title) a.title (enrichOne (oracle 0)).image L0).1).1).2
          ++ []) := by
    rw [publishLoop_cons_new env c (enrichOne (oracle 2)) [] _ hc2]
    rfl
  have h2 : publishLoop env [(b, Option.some (enrichOne (oracle 1))),
      (c, Option.some (enrichOne (oracle 2)))]
      (send_to_telegram (env a.title) a.title (enrichOne (oracle 0)).image L0).1
      = Except.ok
        ((send_to_telegram (env c.title) c.title (enrichOne (oracle 2)).image
          (send_to_telegram (env b.title) b.title (enrichOne (oracle 1)).image
            (send_to_telegram (env a.title) a.title (enrichOne (oracle 0)).image L0).1).1).1,
         (send_to_telegram (env b.title) b.title (enrichOne (oracle 1)).image
            (send_to_telegram (env a.title) a.title (enrichOne (oracle 0)).image L0).1).2
          ++ ((send_to_telegram (env c.title) c.title (enrichOne (oracle 2)).image
          (send_to_telegram (env b.title) b.title (enrichOne (oracle 1)).image
            (send_to_telegram (env a.title) a.title (enrichOne (oracle 0)).image L0).1).1).2
          ++ [])) := by
    rw [publishLoop_cons_new env b (enrichOne (oracle 1))
      [(c, Option.some (enrichOne (oracle 2)))] _ hb1, h3]
  have h1 : publishLoop env [(a, Option.some (enrichOne (oracle 0))),
      (b, Option.some (enrichOne (oracle 1))), (c, Option.some (enrichOne (oracle 2)))] L0
      = Except.ok
        ((send_to_telegram (env c.title) c.title (enrichOne (oracle 2)).image
          (send_to_telegram (env b.title) b.title (enrichOne (oracle 1)).image
            (send_to_telegram (env a.title) a.title (enrichOne (oracle 0)).image L0).1).1).1,
         (send_to_telegram (env a.title) a.title (enrichOne (oracle 0)).image L0).2
          ++ ((send_to_telegram (env b.title) b.title (enrichOne (oracle 1)).image
            (send_to_telegram (env a.title) a.title (enrichOne (oracle 0)).image L0).1).2
          ++ ((send_to_telegram (env c.title) c.title (enrichOne (oracle 2)).image
          (send_to_telegram (env b.title) b.title (enrichOne (oracle 1)).image
            (send_to_telegram (env a.title) a.title (enrichOne (oracle 0)).image L0).1).1).2
          ++ []))) := by
    rw [publishLoop_cons_new env a (enrichOne (oracle 0))
      [(b, Option.some (enrichOne (oracle 1))), (c, Option.some (enrichOne (oracle 2)))]
      L0 ha, h2]
  have hA := send_delivery_block (env a.title) a.title (enrichOne (oracle 0)).image L0
  have hB := send_delivery_block (env b.title) b.title (enrichOne (oracle 1)).image
    (send_to_telegram (env a.title) a.title (enrichOne (oracle 0)).image L0).1
  have hC := send_delivery_block (env c.title) c.title (enrichOne (oracle 2)).image
    (send_to_telegram (env b.title) b.title (enrichOne (oracle 1)).image
      (send_to_telegram (env a.title) a.title (enrichOne (oracle 0)).image L0).1).1
  refine ⟨(send_to_telegram (env c.title) c.title (enrichOne (oracle 2)).image
      (send_to_telegram (env b.title) b.title (enrichOne (oracle 1)).image
        (send_to_telegram (env a.title) a.title (enrichOne (oracle 0)).image L0).1).1).1,
    (fetch_selected_articles oracle completion L0 [a, b, c]).2 ++
      ((send_to_telegram (env a.title) a.title (enrichOne (oracle 0)).image L0).2
        ++ ((send_to_telegram (env b.title) b.title (enrichOne (oracle 1)).image
          (send_to_telegram (env a.title) a.title (enrichOne (oracle 0)).image L0).1).2
        ++ ((send_to_telegram (env c.title) c.title (enrichOne (oracle 2)).image
          (send_to_telegram (env b.title) b.title (enrichOne (oracle 1)).image
            (send_to_telegram (env a.title) a.title (enrichOne (oracle 0)).image L0).1).1).2
        ++ []))),
    deliveryEvents (send_to_telegram (env a.title) a.title
      (enrichOne (oracle 0)).image L0).2,
    deliveryEvents (send_to_telegram (env b.title) b.title (enrichOne (oracle 1)).image
      (send_to_telegram (env a.title) a.title (enrichOne (oracle 0)).image L0).1).2,
    deliveryEvents (send_to_telegram (env c.title) c.title (enrichOne (oracle 2)).image
      (send_to_telegram (env b.title) b.title (enrichOne (oracle 1)).image
        (send_to_telegram (env a.title) a.title (enrichOne (oracle 0)).image L0).1).1).2,
    ?_, ?_, hA.1, hB.1, hC.1, hA.2, hB.2, hC.2⟩
  · show run_once oracle completion env [a, b, c] L0 = _
    simp only [run_once]
    rw [hE, h1]
    simp
  · rw [hE2]
    simp [deliveryEvents, List.filter_append, isDelivery, List.append_assoc]

/-- C7 witness: three distinct new titles, futures completing in the order
`[1, 2, 0]`, all transports succeeding. -/
theorem c7_witness :
    ∃ lf evs dA dB dC,
      run_once (fun _ => Except.ok ⟨Option.none, "s".toList⟩) [1, 2, 0]
        (fun _ => ⟨true, true, true⟩)
        [{ title := "A".toList, articleUrl := Option.none, thumb := Option.none },
         { title := "B".toList, articleUrl := Option.none, thumb := Option.none },
         { title := "C".toList, articleUrl := Option.none, thumb := Option.none }]
        [] = Except.ok (lf, evs) ∧
      deliveryEvents evs = dA ++ dB ++ dC ∧
      dA ≠ [] ∧ dB ≠ [] ∧ dC ≠ [] ∧
      (∀ e ∈ dA, eventTitle e = "A".toList) ∧
      (∀ e ∈ dB, eventTitle e = "B".toList) ∧
      (∀ e ∈ dC, eventTitle e = "C".toList) :=
  c7_feed_order
    { title := "A".toList, articleUrl := Option.none, thumb := Option.none }
    { title := "B".toList, articleUrl := Option.none, thumb := Option.none }
    { title := "C".toList, articleUrl := Option.none, thumb := Option.none }
    (fun _ => Except.ok ⟨Option.none, "s".toList⟩) [1, 2, 0]
    (fun _ => ⟨true, true, true⟩) []
    (by decide) (by decide) (by decide) (by decide) (by decide) (by decide) (by decide)

/-- Focusing the publishing loop on one designated entry whose enrichment
was degraded (`image = none`) and whose text delivery succeeds: the loop
completes, the designated entry is delivered by text and persisted, and no
photo delivery is ever attempted for its title. -/
theorem publishLoop_designated (env : Str → SendEnv) (L0 : List Str)
    (itemI : NewsItem) (dI : Details)
    (himg : dI.image = Option.none)
    (htext : (env itemI.title).textOk = true)
    (post : List (NewsItem × Option Details))
    (hdpost : ∀ e ∈ post, e.2.isSome = true ∨ e.1.title ∈ L0)
    (_hpostne : ∀ e ∈ post, e.1.title ≠ itemI.title) :
    ∀ (pre : List (NewsItem × Option Details)) (ledger : List Str),
      (∀ e ∈ pre, e.2.isSome = true ∨ e.1.title ∈ L0) →
      (∀ e ∈ pre, e.1.title ≠ itemI.title) →
      (∀ x ∈ L0, x ∈ ledger) →
      itemI.title ∉ ledger →
      ∃ lf evs, publishLoop env (pre ++ (itemI, Option.some dI) :: post) ledger
          = Except.ok (lf, evs) ∧
        Event.textSend itemI.title true ∈ evs ∧
        Event.save itemI.title ∈ evs ∧
        (∀ bk : Bool, Event.photoSend itemI.title bk ∉ evs) := by
  intro pre
  induction pre with
  | nil =>
    intro ledger _ _ hsub hnotmem
    have hsend : send_to_telegram (env itemI.title) itemI.title dI.image ledger
        = (addTitle itemI.title ledger,
           [Event.textSend itemI.title true, Event.save itemI.title]) := by
      rw [himg]
      simp [send_to_telegram, truthy, htext]
    obtain ⟨lf, evs2, heq, _, _, hfresh⟩ :=
      publishLoop_spec env L0 post (addTitle itemI.title ledger) hdpost
        (fun x hx => subset_addTitle _ _ (hsub x hx))
    refine ⟨lf, [Event.textSend itemI.title true, Event.save itemI.title] ++ evs2,
      ?_, ?_, ?_, ?_⟩
    · rw [List.nil_append, publishLoop_cons_new env itemI dI post ledger hnotmem, hsend]
      rw [heq]
    · exact List.mem_append_left _ (by simp)
    · exact List.mem_append_left _ (by simp)
    · intro bk hmem
      rcases List.mem_append.mp hmem with h | h
      · simp at h
      · have := hfresh _ h
        simp only [eventTitle] at this
        exact this (mem_addTitle_self _ _)
  | cons e pre' ih =>
    obtain ⟨item, dOpt⟩ := e
    intro ledger hdpre hprene hsub hnotmem
    by_cases hmem : item.title ∈ ledger
    · obtain ⟨lf, evs, heq, h1, h2, h3⟩ :=
        ih ledger (fun e he => hdpre e (List.mem_cons_of_mem _ he))
          (fun e he => hprene e (List.mem_cons_of_mem _ he)) hsub hnotmem
      refine ⟨lf, evs, ?_, h1, h2, h3⟩
      rw [List.cons_append]
      simp only [publishLoop]
      rw [if_pos hmem, heq]
    · have hdet : dOpt.isSome = true := by
        rcases hdpre (item, dOpt) (List.mem_cons_self _ _) with h | h
        · exact h
        · exact absurd (hsub _ h) hmem
      obtain ⟨d, hdeq⟩ := Option.isSome_iff_exists.mp hdet
      subst hdeq
      have hmono1 := send_ledger_mono (env item.title) item.title d.image ledger
      have hsub1 := send_ledger_sub (env item.title) item.title d.image ledger
      have hni : itemI.title ∉
          (send_to_telegram (env item.title) item.title d.image ledger).1 := by
        intro h
        rcases List.mem_cons.mp (hsub1 h) with h' | h'
        · exact hprene (item, Option.some d) (List.mem_cons_self _ _) h'.symm
        · exact hnotmem h'
      obtain ⟨lf, evs, heq, h1, h2, h3⟩ :=
        ih (send_to_telegram (env item.title) item.title d.image ledger).1
          (fun e he => hdpre e (List.mem_cons_of_mem _ he))
          (fun e he => hprene e (List.mem_cons_of_mem _ he))
          (fun x hx => hmono1 (hsub x hx)) hni
      refine ⟨lf, (send_to_telegram (env item.title) item.title d.image ledger).2 ++ evs,
        ?_, List.mem_append_right _ h1, List.mem_append_right _ h2, ?_⟩
      · rw [List.cons_append, publishLoop_cons_new env item d _ ledger hmem, heq]
      · intro bk hb
        rcases List.mem_append.mp hb with h | h
        · have := send_events_titles (env item.title) item.title d.image ledger _ h
          simp only [eventTitle] at this
          exact hprene (item, Option.some d) (List.mem_cons_self _ _) this.symm
        · exact h3 bk h

/-- C6: if the enrichment future of one entry raises, that entry is
degraded to `image = none` with the fallback summary, the run still
completes normally, and the degraded entry is delivered by text-only
delivery (no photo attempt for its title) and persisted — provided its
text delivery succeeds, its title is new, and titles are unique. -/
theorem c6_degradation (pre post : List NewsItem) (itemI : NewsItem)
    (oracle : Nat → Except Unit Details) (completion : List Nat)
    (env : Str → SendEnv) (L0 : List Str)
    (horacle : oracle pre.length = Except.error ())
    (hpre : ∀ n ∈ pre, n.title ≠ itemI.title)
    (hpost : ∀ n ∈ post, n.title ≠ itemI.title)
    (hnew : itemI.title ∉ L0)
    (htext : (env itemI.title).textOk = true)
    (hperm : completion.Perm (dispatchedIdx L0 (pre ++ itemI :: post))) :
    (∃ ep ep2, (fetch_selected_articles oracle completion L0 (pre ++ itemI :: post)).1
        = ep ++ (itemI, Option.some degradeDetails) :: ep2) ∧
    ∃ lf evs, run_once oracle completion env (pre ++ itemI :: post) L0
        = Except.ok (lf, evs) ∧
      Event.textSend itemI.title true ∈ evs ∧
      Event.save itemI.title ∈ evs ∧
      (∀ bk : Bool, Event.photoSend itemI.title bk ∉ evs) := by
  have hwi : withIdx 0 (pre ++ itemI :: post)
      = withIdx 0 pre ++ (pre.length, itemI) :: withIdx (pre.length + 1) post := by
    rw [withIdx_append, Nat.zero_add]
    rfl
  have hEnr : (fetch_selected_articles oracle completion L0 (pre ++ itemI :: post)).1
      = (withIdx 0 pre).map (fun p =>
          if p.2.title ∈ L0 then (p.2, (Option.none : Option Details))
          else (p.2, Option.some (enrichOne (oracle p.1))))
        ++ (itemI, Option.some degradeDetails)
        :: (withIdx (pre.length + 1) post).map (fun p =>
          if p.2.title ∈ L0 then (p.2, (Option.none : Option Details))
          else (p.2, Option.some (enrichOne (oracle p.1)))) := by
    rw [fetch_selected_fst oracle completion L0 (pre ++ itemI :: post) hperm, hwi,
      List.map_append, List.map_cons]
    simp [hnew, horacle, enrichOne]
  have hdpre' : ∀ e ∈ (withIdx 0 pre).map (fun p =>
      if p.2.title ∈ L0 then (p.2, (Option.none : Option Details))
      else (p.2, Option.some (enrichOne (oracle p.1)))),
      e.2.isSome = true ∨ e.1.title ∈ L0 := by
    intro e he
    obtain ⟨p, _, rfl⟩ := List.mem_map.mp he
    by_cases h : p.2.title ∈ L0
    · simp [h]
    · simp [h]
  have hdpost' : ∀ e ∈ (withIdx (pre.length + 1) post).map (fun p =>
      if p.2.title ∈ L0 then (p.2, (Option.none : Option Details))
      else (p.2, Option.some (enrichOne (oracle p.1)))),
      e.2.isSome = true ∨ e.1.title ∈ L0 := by
    intro e he
    obtain ⟨p, _, rfl⟩ := List.mem_map.mp he
    by_cases h : p.2.title ∈ L0
    · simp [h]
    · simp [h]
  have hprene' : ∀ e ∈ (withIdx 0 pre).map (fun p =>
      if p.2.title ∈ L0 then (p.2, (Option.none : Option Details))
      else (p.2, Option.some (enrichOne (oracle p.1)))),
      e.1.title ≠ itemI.title := by
    intro e he
    obtain ⟨p, hp, rfl⟩ := List.mem_map.mp he
    have hmem := mem_withIdx 0 pre p hp
    by_cases h : p.2.title ∈ L0
    · simpa [h] using hpre p.2 hmem
    · simpa [h] using hpre p.2 hmem
  have hpostne' : ∀ e ∈ (withIdx (pre.length + 1) post).map (fun p =>
      if p.2.title ∈ L0 then (p.2, (Option.none : Option Details))
      else (p.2, Option.some (enrichOne (oracle p.1)))),
      e.1.title ≠ itemI.title := by
    intro e he
    obtain ⟨p, hp, rfl⟩ := List.mem_map.mp he
    have hmem := mem_withIdx (pre.length + 1) post p hp
    by_cases h : p.2.title ∈ L0
    · simpa [h] using hpost p.2 hmem
    · simpa [h] using hpost p.2 hmem
  obtain ⟨lf, evs, heq, hin1, hin2, hnophoto⟩ :=
    publishLoop_designated env L0 itemI degradeDetails rfl htext _ hdpost' hpostne'
      _ L0 hdpre' hprene' (fun x hx => hx) hnew
  have hne : (pre ++ itemI :: post).isEmpty = false := by
    cases pre <;> rfl
  refine ⟨⟨_, _, hEnr⟩, lf,
    (fetch_selected_articles oracle completion L0 (pre ++ itemI :: post)).2 ++ evs,
    ?_, List.mem_append_right _ hin1, List.mem_append_right _ hin2, ?_⟩
  · simp only [run_once, hne]
    rw [hEnr, heq]
    simp
  · intro bk hb
    rcases List.mem_append.mp hb with h | h
    · obtain ⟨⟨t', ht'⟩, _⟩ := fetch_selected_events oracle completion L0
        (pre ++ itemI :: post) _ h
      simp at ht'
    · exact hnophoto bk h

/-- C6 witness: a single-entry feed whose enrichment future raises; the
entry is degraded, sent as text and saved. -/
theorem c6_witness :
    (∃ ep ep2, (fetch_selected_articles (fun _ => Except.error ()) [0] []
        [{ title := "A".toList, articleUrl := Option.none, thumb := Option.none }]).1
        = ep ++ ({ title := "A".toList, articleUrl := Option.none, thumb := Option.none },
            Option.some degradeDetails) :: ep2) ∧
    ∃ lf evs, run_once (fun _ => Except.error ()) [0] (fun _ => ⟨true, true, true⟩)
        [{ title := "A".toList, articleUrl := Option.none, thumb := Option.none }]
        [] = Except.ok (lf, evs) ∧
      Event.textSend ("A".toList) true ∈ evs ∧
      Event.save ("A".toList) ∈ evs ∧
      (∀ bk : Bool, Event.photoSend ("A".toList) bk ∉ evs) :=
  c6_degradation [] []
    { title := "A".toList, articleUrl := Option.none, thumb := Option.none }
    (fun _ => Except.error ()) [0] (fun _ => ⟨true, true, true⟩) []
    rfl (by simp) (by simp) (by simp) rfl (by decide)

/-- C10 witness: the escaping law applied to a concrete title and summary
whose caption stays under the photo-caption limit. -/
theorem c10_witness :
    ("x<y".toList : Str) ≠ [] ∧
    captionOf ("a&b".toList) ("x<y".toList)
      = buildCaption (escMap ("a&b".toList)) (escMap ("x<y".toList)) :=
  ⟨by decide, by
    have h := c10_escaping.2.2.2.2 ("a&b".toList) ("x<y".toList) (by decide)
    rw [h, if_neg (by decide)]⟩

end AnimeBot
